import Mathlib

/-!
Shallow embedding of the go-locEnv environment-file loader.

The repository holds two successive versions of the same loader:
the authoritative (later) version, whose `searchInDirectory` walks a
directory subtree and selects a `.env.<profile>` file only when the
encoded profile equals the loader's active profile (stopping the walk
with the sentinel `ErrEnvFound`), and the superseded (earlier) version
`V1`, whose `findEnvFile` walks the current directory's subtree and
keeps overwriting its result with every `.env.*` file it sees.

Modelling decisions:
* A call of `filepath.Walk` is embedded by the list of callback
  invocations it performs, in walk order: each `WalkEntry` carries the
  `path` and `info.Name()` arguments and the `err` argument handed to
  the callback (`some msg` models a filesystem error for that entry).
  `filepath.Walk` stops as soon as the callback returns a non-nil
  error, and returns that error; this is modelled by `runWalk`.
* A directory path handed to `filepath.Dir` is embedded as `GoPath`:
  an absolute-or-relative flag plus the list of path components of the
  cleaned path.  On cleaned paths `filepath.Dir` drops the last
  component, and the Go test `currentDir == "/" || currentDir == "."`
  holds exactly when the component list is empty (`"/"` when absolute,
  `"."` when relative).
* The filesystem seen by the upward walk is a function
  `fs : GoPath → List WalkEntry` giving, for each directory the walk
  may scan, the walk-order callback sequence of its subtree.
* Go error values are embedded by the inductive `Err`; `Err.fs msg`
  stands for an error coming out of a filesystem operation (carried
  unchanged), `Err.envFound` is the sentinel `ErrEnvFound`,
  `Err.notFound` is `fmt.Errorf("arquivo .env não encontrado")`, and
  `Err.parse msg` is the wrapped godotenv failure.
* The external collaborator `godotenv.Load` is a parameter
  `godotenv : String → Option String` returning `some msg` on failure.
* `strings.HasPrefix` / `strings.TrimPrefix` are embedded by
  `hasPrefixStr` / `trimPrefixStr` on the character lists of the
  strings (file names here are ASCII, so byte and character indexing
  agree).
-/

/-- One invocation of a `filepath.Walk` callback: the `path` argument,
the `info.Name()` of the entry, whether the entry is a directory, and
the `err` argument (`some msg` models a filesystem error reported for
this entry). -/
structure WalkEntry where
  path : String
  name : String
  isDir : Bool
  err : Option String
deriving DecidableEq, Repr

/-- Go error values that can flow through the loader. -/
inductive Err where
  | envFound : Err
  | fs : String → Err
  | notFound : Err
  | parse : String → Err
deriving DecidableEq, Repr

/-- The `FileEnvLoader` struct: its single field `Env` stores the
active profile. -/
structure FileEnvLoader where
  Env : String
deriving DecidableEq, Repr

/-- `strings.HasPrefix(s, p)`. -/
def hasPrefixStr (p s : String) : Bool :=
  List.isPrefixOf p.data s.data

/-- `strings.TrimPrefix(s, p)`: drops `p` from the front of `s` when
`s` has that prefix, otherwise returns `s` unchanged. -/
def trimPrefixStr (p s : String) : String :=
  if List.isPrefixOf p.data s.data then ⟨s.data.drop p.data.length⟩ else s

/-- A candidate file: a non-directory entry whose name has the literal
prefix `.env.` (spec §3). -/
def isCandidate (e : WalkEntry) : Bool :=
  !e.isDir && hasPrefixStr ".env." e.name

/-- The encoded profile of an entry: the remainder of its name after
the `.env.` prefix (spec §3). -/
def encodedProfile (e : WalkEntry) : String :=
  trimPrefixStr ".env." e.name

/-- The walk performed by `searchInDirectory` (later version): the
anonymous callback over the entries in walk order, threading the
closure state `(filePath, env)`.  The callback propagates the `err`
argument, skips directories, and on a candidate file stores the
encoded profile in `env`; when that profile equals the active profile
it stores the path and returns the sentinel `ErrEnvFound`, which stops
`filepath.Walk`. -/
def runWalk (active : String) (st : String × String) :
    List WalkEntry → (String × String) × Option Err
  | [] => (st, none)
  | e :: rest =>
    match e.err with
    | some m => (st, some (Err.fs m))
    | none =>
      if e.isDir then runWalk active st rest
      else if hasPrefixStr ".env." e.name then
        let env := trimPrefixStr ".env." e.name
        if env = active then ((e.path, env), some Err.envFound)
        else runWalk active (st.1, env) rest
      else runWalk active st rest

/-- `searchInDirectory` (later version): run the walk from the empty
closure state, then turn the sentinel `ErrEnvFound` back into a nil
error (`if err == ErrEnvFound { err = nil }`), and return
`(filePath, env, err)`. -/
def searchInDirectory (active : String) (entries : List WalkEntry) :
    String × String × Option Err :=
  match runWalk active ("", "") entries with
  | ((fp, env), err) =>
    (fp, env, if err = some Err.envFound then none else err)

/-- A cleaned directory path: `isAbs` tells whether it is absolute,
`comps` is its list of components.  `⟨true, []⟩` renders as `"/"` and
`⟨false, []⟩` renders as `"."`. -/
structure GoPath where
  isAbs : Bool
  comps : List String
deriving DecidableEq, Repr

/-- `filepath.Dir` on a cleaned path: drop the last component. -/
def dirP (p : GoPath) : GoPath :=
  ⟨p.isAbs, p.comps.dropLast⟩

/-- The Go test `dir == "/" || dir == "."`: a cleaned path prints as
`"/"` or `"."` exactly when its component list is empty. -/
def isRootOrDot (p : GoPath) : Bool :=
  p.comps.isEmpty

/-- `searchInCurrentAndParentDirectories` (later version): loop
scanning the current directory; on a search error return
`("", "", err)`; on a non-empty path break; otherwise move to
`filepath.Dir` of the current directory and break if that parent is
`"/"` or `"."`, returning whatever the last scan left in
`(filePath, env)`. -/
def searchInCurrentAndParentDirectories (active : String)
    (fs : GoPath → List WalkEntry) (currentDir : GoPath) :
    String × String × Option Err :=
  match searchInDirectory active (fs currentDir) with
  | (_, _, some er) => ("", "", some er)
  | (fp, env, none) =>
    if fp = "" then
      if isRootOrDot (dirP currentDir) then (fp, env, none)
      else searchInCurrentAndParentDirectories active fs (dirP currentDir)
    else (fp, env, none)
termination_by currentDir.comps.length
decreasing_by
  rename_i h
  simp only [isRootOrDot, dirP, List.isEmpty_iff, Bool.not_eq_true,
    decide_eq_false_iff_not] at h
  have hne : currentDir.comps ≠ [] := by
    intro hc
    rw [hc] at h
    simp at h
  simp only [dirP, List.length_dropLast]
  exact Nat.sub_lt (List.length_pos.mpr hne) Nat.one_pos

/-- The list of directories the upward walk scans, starting at `p`:
`p` itself, then the parents, stopping before a parent that is `"/"`
or `"."`. -/
def visitedChain (p : GoPath) : List GoPath :=
  if isRootOrDot (dirP p) then [p] else p :: visitedChain (dirP p)
termination_by p.comps.length
decreasing_by
  rename_i h
  simp only [isRootOrDot, dirP, List.isEmpty_iff, Bool.not_eq_true,
    decide_eq_false_iff_not] at h
  have hne : p.comps ≠ [] := by
    intro hc
    rw [hc] at h
    simp at h
  simp only [dirP, List.length_dropLast]
  exact Nat.sub_lt (List.length_pos.mpr hne) Nat.one_pos

/-- `findEnvFile` (later version): get the working directory
(`os.Getwd`, whose failure is a filesystem error returned unchanged),
then delegate to `searchInCurrentAndParentDirectories`. -/
def findEnvFile (active : String) (fs : GoPath → List WalkEntry)
    (cwd : Except String GoPath) : String × String × Option Err :=
  match cwd with
  | Except.error m => ("", "", some (Err.fs m))
  | Except.ok currentDir =>
    match searchInCurrentAndParentDirectories active fs currentDir with
    | (_, _, some er) => ("", "", some er)
    | (fp, env, none) => (fp, env, none)

/-- `loadEnvFile`: call `godotenv.Load(envFile)`; on failure return the
error wrapped with context
(`fmt.Errorf("erro ao carregar variáveis de ambiente: %s", ...)`). -/
def loadEnvFile (godotenv : String → Option String) (envFile : String) :
    Option Err :=
  match godotenv envFile with
  | some m => some (Err.parse ("erro ao carregar variáveis de ambiente: " ++ m))
  | none => none

/-- `LoadEnv` (later version): find the env file; propagate a search
error unchanged; with an empty path fail with
`"arquivo .env não encontrado"`; otherwise set `f.Env` to the found
profile and delegate to `loadEnvFile`.  Returns the updated loader
together with the returned error. -/
def LoadEnv (f : FileEnvLoader) (fs : GoPath → List WalkEntry)
    (cwd : Except String GoPath) (godotenv : String → Option String) :
    FileEnvLoader × Option Err :=
  match findEnvFile f.Env fs cwd with
  | (_, _, some er) => (f, some er)
  | (envFile, env, none) =>
    if envFile = "" then (f, some Err.notFound)
    else ({ Env := env }, loadEnvFile godotenv envFile)

/-- `GetEnv`: return the `Env` field. -/
def GetEnv (f : FileEnvLoader) : String :=
  f.Env

namespace V1

/-- The walk performed by the earlier `findEnvFile`: the anonymous
callback over the entries in walk order, threading `(filePath, env)`.
It propagates the `err` argument (which aborts `filepath.Walk`, whose
return value the earlier version discards), skips directories, and on
every `.env.*` file overwrites both the path and the encoded
profile — it never stops early and never compares against the active
profile. -/
def findEnvWalk (st : String × String) :
    List WalkEntry → String × String
  | [] => st
  | e :: rest =>
    match e.err with
    | some _ => st
    | none =>
      if e.isDir then findEnvWalk st rest
      else if hasPrefixStr ".env." e.name then
        findEnvWalk (e.path, trimPrefixStr ".env." e.name) rest
      else findEnvWalk st rest

/-- The earlier `findEnvFile`: walk the current directory's subtree
from the empty closure state and return whatever `(filePath, env)` the
walk left behind. -/
def findEnvFile (entries : List WalkEntry) : String × String :=
  findEnvWalk ("", "") entries

/-- The earlier `LoadEnv`: find the env file; with an empty path fail
with `"arquivo .env não encontrado"`; otherwise set `f.Env` to the
found profile and delegate to `loadEnvFile`. -/
def LoadEnv (f : FileEnvLoader) (entries : List WalkEntry)
    (godotenv : String → Option String) : FileEnvLoader × Option Err :=
  match findEnvFile entries with
  | (envFile, env) =>
    if envFile = "" then (f, some Err.notFound)
    else ({ Env := env }, loadEnvFile godotenv envFile)

end V1

/-- A candidate file encoding profile `other`, under path `/w`. -/
def entOther : WalkEntry := ⟨"/w/.env.other", ".env.other", false, none⟩

/-- A candidate file encoding profile `mine`, under path `/w`. -/
def entMine : WalkEntry := ⟨"/w/.env.mine", ".env.mine", false, none⟩

/-- A candidate file encoding profile `a`, the first in walk order in
the two-candidate example. -/
def entA : WalkEntry := ⟨"a/.env.a", ".env.a", false, none⟩

/-- A candidate file encoding profile `b`, the second in walk order in
the two-candidate example. -/
def entB : WalkEntry := ⟨"b/.env.b", ".env.b", false, none⟩

/-- A candidate file encoding profile `test`, in directory `/home`. -/
def entTest : WalkEntry := ⟨"/home/.env.test", ".env.test", false, none⟩

/-- A filesystem whose working directory `.` holds only a candidate
for profile `other`. -/
def fsOnlyOther : GoPath → List WalkEntry :=
  fun p => if p = ⟨false, []⟩ then [entOther] else []

/-- A filesystem where only `/home` has an entry: the matching file
`.env.test`, so a walk starting at `/home/sub` finds it one level up. -/
def fsParentTest : GoPath → List WalkEntry :=
  fun q => if q = ⟨true, ["home"]⟩ then [entTest] else []

/-- The empty filesystem: every scan sees no entries. -/
def fsEmpty : GoPath → List WalkEntry := fun _ => []

/-- A filesystem whose working directory `.` holds only a candidate
for profile `mine`. -/
def fsOnlyMine : GoPath → List WalkEntry :=
  fun p => if p = ⟨false, []⟩ then [entMine] else []

/-- The last candidate file of a walk, in walk order: what the earlier
`findEnvFile` ends up reporting when no filesystem error aborts the
walk. -/
def lastCandidate (entries : List WalkEntry) : Option WalkEntry :=
  (entries.filter fun e => isCandidate e).getLast?

theorem runWalk_nil (active : String) (st : String × String) :
    runWalk active st [] = (st, none) := rfl

theorem runWalk_err (active : String) (st : String × String)
    (e : WalkEntry) (rest : List WalkEntry) (m : String)
    (he : e.err = some m) :
    runWalk active st (e :: rest) = (st, some (Err.fs m)) := by
  simp [runWalk, he]

theorem runWalk_dir (active : String) (st : String × String)
    (e : WalkEntry) (rest : List WalkEntry)
    (he : e.err = none) (hd : e.isDir = true) :
    runWalk active st (e :: rest) = runWalk active st rest := by
  simp [runWalk, he, hd]

theorem runWalk_plain (active : String) (st : String × String)
    (e : WalkEntry) (rest : List WalkEntry)
    (he : e.err = none) (hd : e.isDir = false)
    (hp : hasPrefixStr ".env." e.name = false) :
    runWalk active st (e :: rest) = runWalk active st rest := by
  simp [runWalk, he, hd, hp]

theorem runWalk_hit (active : String) (st : String × String)
    (e : WalkEntry) (rest : List WalkEntry)
    (he : e.err = none) (hd : e.isDir = false)
    (hp : hasPrefixStr ".env." e.name = true)
    (hq : trimPrefixStr ".env." e.name = active) :
    runWalk active st (e :: rest) =
      ((e.path, trimPrefixStr ".env." e.name), some Err.envFound) := by
  simp [runWalk, he, hd, hp, hq]

theorem runWalk_miss (active : String) (st : String × String)
    (e : WalkEntry) (rest : List WalkEntry)
    (he : e.err = none) (hd : e.isDir = false)
    (hp : hasPrefixStr ".env." e.name = true)
    (hq : trimPrefixStr ".env." e.name ≠ active) :
    runWalk active st (e :: rest) =
      runWalk active (st.1, trimPrefixStr ".env." e.name) rest := by
  simp [runWalk, he, hd, hp, hq]

theorem runWalk_err_shape (active : String) :
    ∀ (entries : List WalkEntry) (st : String × String) (er : Err),
      (runWalk active st entries).2 = some er →
      er = Err.envFound ∨ ∃ m, er = Err.fs m := by
  intro entries
  induction entries with
  | nil =>
    intro st er h
    simp [runWalk_nil] at h
  | cons e rest ih =>
    intro st er h
    cases he : e.err with
    | some m =>
      rw [runWalk_err active st e rest m he] at h
      simp at h
      exact Or.inr ⟨m, h.symm⟩
    | none =>
      by_cases hd : e.isDir
      · rw [runWalk_dir active st e rest he hd] at h
        exact ih st er h
      · rw [Bool.not_eq_true] at hd
        by_cases hp : hasPrefixStr ".env." e.name
        · by_cases hq : trimPrefixStr ".env." e.name = active
          · rw [runWalk_hit active st e rest he hd hp hq] at h
            simp at h
            exact Or.inl h.symm
          · rw [runWalk_miss active st e rest he hd hp hq] at h
            exact ih _ er h
        · rw [Bool.not_eq_true] at hp
          rw [runWalk_plain active st e rest he hd hp] at h
          exact ih st er h

theorem runWalk_envFound (active : String) :
    ∀ (entries : List WalkEntry) (st : String × String)
      (fp env : String),
      runWalk active st entries = ((fp, env), some Err.envFound) →
      ∃ e ∈ entries, e.err = none ∧ e.isDir = false ∧
        isCandidate e = true ∧ encodedProfile e = active ∧
        fp = e.path ∧ env = encodedProfile e := by
  intro entries
  induction entries with
  | nil =>
    intro st fp env h
    simp [runWalk_nil] at h
  | cons e rest ih =>
    intro st fp env h
    cases he : e.err with
    | some m =>
      rw [runWalk_err active st e rest m he] at h
      simp at h
    | none =>
      by_cases hd : e.isDir
      · rw [runWalk_dir active st e rest he hd] at h
        obtain ⟨e2, hmem, hrest⟩ := ih st fp env h
        exact ⟨e2, List.mem_cons_of_mem e hmem, hrest⟩
      · rw [Bool.not_eq_true] at hd
        by_cases hp : hasPrefixStr ".env." e.name
        · by_cases hq : trimPrefixStr ".env." e.name = active
          · rw [runWalk_hit active st e rest he hd hp hq] at h
            simp only [Prod.mk.injEq, Option.some.injEq] at h
            refine ⟨e, List.mem_cons_self e rest, he, hd, ?_, ?_, ?_, ?_⟩
            · simp [isCandidate, hd, hp]
            · simpa [encodedProfile] using hq
            · exact h.1.1.symm
            · simpa [encodedProfile] using h.1.2.symm
          · rw [runWalk_miss active st e rest he hd hp hq] at h
            obtain ⟨e2, hmem, hrest⟩ := ih _ fp env h
            exact ⟨e2, List.mem_cons_of_mem e hmem, hrest⟩
        · rw [Bool.not_eq_true] at hp
          rw [runWalk_plain active st e rest he hd hp] at h
          obtain ⟨e2, hmem, hrest⟩ := ih st fp env h
          exact ⟨e2, List.mem_cons_of_mem e hmem, hrest⟩

theorem runWalk_not_envFound_fp (active : String) :
    ∀ (entries : List WalkEntry) (st : String × String),
      (runWalk active st entries).2 ≠ some Err.envFound →
      (runWalk active st entries).1.1 = st.1 := by
  intro entries
  induction entries with
  | nil =>
    intro st _
    simp [runWalk_nil]
  | cons e rest ih =>
    intro st h
    cases he : e.err with
    | some m =>
      rw [runWalk_err active st e rest m he]
    | none =>
      by_cases hd : e.isDir
      · rw [runWalk_dir active st e rest he hd] at h ⊢
        exact ih st h
      · rw [Bool.not_eq_true] at hd
        by_cases hp : hasPrefixStr ".env." e.name
        · by_cases hq : trimPrefixStr ".env." e.name = active
          · rw [runWalk_hit active st e rest he hd hp hq] at h
            simp at h
          · rw [runWalk_miss active st e rest he hd hp hq] at h ⊢
            exact ih _ h
        · rw [Bool.not_eq_true] at hp
          rw [runWalk_plain active st e rest he hd hp] at h ⊢
          exact ih st h

theorem runWalk_noMatch (active : String) :
    ∀ (entries : List WalkEntry) (st : String × String),
      (∀ e ∈ entries, e.err = none ∧
        (isCandidate e = true → encodedProfile e ≠ active)) →
      ∃ env2, runWalk active st entries = ((st.1, env2), none) := by
  intro entries
  induction entries with
  | nil =>
    intro st _
    exact ⟨st.2, by simp [runWalk_nil]⟩
  | cons e rest ih =>
    intro st hall
    obtain ⟨he, hnm⟩ := hall e (List.mem_cons_self e rest)
    have hrest : ∀ e2 ∈ rest, e2.err = none ∧
        (isCandidate e2 = true → encodedProfile e2 ≠ active) :=
      fun e2 h2 => hall e2 (List.mem_cons_of_mem e h2)
    by_cases hd : e.isDir
    · rw [runWalk_dir active st e rest he hd]
      exact ih st hrest
    · rw [Bool.not_eq_true] at hd
      by_cases hp : hasPrefixStr ".env." e.name
      · have hcand : isCandidate e = true := by simp [isCandidate, hd, hp]
        have hq : trimPrefixStr ".env." e.name ≠ active := by
          simpa [encodedProfile] using hnm hcand
        rw [runWalk_miss active st e rest he hd hp hq]
        exact ih _ hrest
      · rw [Bool.not_eq_true] at hp
        rw [runWalk_plain active st e rest he hd hp]
        exact ih st hrest

theorem runWalk_match (active : String) :
    ∀ (entries : List WalkEntry) (st : String × String),
      (∀ e ∈ entries, e.err = none) →
      (∃ e ∈ entries, isCandidate e = true ∧ encodedProfile e = active) →
      ∃ e ∈ entries, isCandidate e = true ∧ encodedProfile e = active ∧
        runWalk active st entries = ((e.path, active), some Err.envFound) := by
  intro entries
  induction entries with
  | nil =>
    intro st _ hex
    simp at hex
  | cons e rest ih =>
    intro st herr hex
    have he : e.err = none := herr e (List.mem_cons_self e rest)
    have herrr : ∀ e2 ∈ rest, e2.err = none :=
      fun e2 h2 => herr e2 (List.mem_cons_of_mem e h2)
    by_cases hm : isCandidate e = true ∧ encodedProfile e = active
    · obtain ⟨hcand, hprof⟩ := hm
      have hd : e.isDir = false := by
        by_contra hd2
        rw [Bool.not_eq_false] at hd2
        simp [isCandidate, hd2] at hcand
      have hp : hasPrefixStr ".env." e.name = true := by
        simpa [isCandidate, hd] using hcand
      have hq : trimPrefixStr ".env." e.name = active := by
        simpa [encodedProfile] using hprof
      refine ⟨e, List.mem_cons_self e rest, hcand, hprof, ?_⟩
      rw [runWalk_hit active st e rest he hd hp hq, hq]
    · have hex2 : ∃ e2 ∈ rest, isCandidate e2 = true ∧
          encodedProfile e2 = active := by
        obtain ⟨e2, hmem, h2⟩ := hex
        rcases List.mem_cons.mp hmem with rfl | hmem2
        · exact absurd h2 hm
        · exact ⟨e2, hmem2, h2⟩
      by_cases hd : e.isDir
      · obtain ⟨e2, hmem, h2⟩ := ih st herrr hex2
        exact ⟨e2, List.mem_cons_of_mem e hmem, h2.1, h2.2.1, by
          rw [runWalk_dir active st e rest he hd]; exact h2.2.2⟩
      · rw [Bool.not_eq_true] at hd
        by_cases hp : hasPrefixStr ".env." e.name
        · have hq : trimPrefixStr ".env." e.name ≠ active := by
            intro hq
            exact hm ⟨by simp [isCandidate, hd, hp],
              by simpa [encodedProfile] using hq⟩
          obtain ⟨e2, hmem, h2⟩ :=
            ih (st.1, trimPrefixStr ".env." e.name) herrr hex2
          exact ⟨e2, List.mem_cons_of_mem e hmem, h2.1, h2.2.1, by
            rw [runWalk_miss active st e rest he hd hp hq]; exact h2.2.2⟩
        · rw [Bool.not_eq_true] at hp
          obtain ⟨e2, hmem, h2⟩ := ih st herrr hex2
          exact ⟨e2, List.mem_cons_of_mem e hmem, h2.1, h2.2.1, by
            rw [runWalk_plain active st e rest he hd hp]; exact h2.2.2⟩

theorem searchInDirectory_convert (active : String)
    (entries : List WalkEntry) (fp env : String)
    (h : runWalk active ("", "") entries = ((fp, env), some Err.envFound)) :
    searchInDirectory active entries = (fp, env, none) := by
  simp [searchInDirectory, h]

theorem searchInDirectory_noMatch (active : String)
    (entries : List WalkEntry)
    (hall : ∀ e ∈ entries, e.err = none ∧
      (isCandidate e = true → encodedProfile e ≠ active)) :
    ∃ env2, searchInDirectory active entries = ("", env2, none) := by
  obtain ⟨env2, h⟩ := runWalk_noMatch active entries ("", "") hall
  exact ⟨env2, by simp [searchInDirectory, h]⟩

theorem searchInDirectory_match (active : String)
    (entries : List WalkEntry)
    (herr : ∀ e ∈ entries, e.err = none)
    (hex : ∃ e ∈ entries, isCandidate e = true ∧ encodedProfile e = active) :
    ∃ e ∈ entries, isCandidate e = true ∧ encodedProfile e = active ∧
      searchInDirectory active entries = (e.path, active, none) := by
  obtain ⟨e, hmem, hc, hp, hr⟩ := runWalk_match active entries ("", "") herr hex
  exact ⟨e, hmem, hc, hp, by simp [searchInDirectory, hr]⟩

theorem searchInDirectory_success_origin (active : String)
    (entries : List WalkEntry) (fp env : String)
    (h : searchInDirectory active entries = (fp, env, none)) (hfp : fp ≠ "") :
    ∃ e ∈ entries, isCandidate e = true ∧ encodedProfile e = active ∧
      fp = e.path ∧ env = active := by
  rcases hr : runWalk active ("", "") entries with ⟨⟨fp0, env0⟩, er0⟩
  rw [searchInDirectory, hr] at h
  by_cases hev : er0 = some Err.envFound
  · subst hev
    simp at h
    obtain ⟨e, hmem, _, _, hc, hp, hfp2, henv⟩ :=
      runWalk_envFound active entries ("", "") fp0 env0 hr
    obtain ⟨h1, h2⟩ := h
    exact ⟨e, hmem, hc, hp, by rw [← h1]; exact hfp2,
      by rw [← h2, henv, hp]⟩
  · simp [hev] at h
    obtain ⟨h1, _, h3⟩ := h
    have : fp0 = "" := by
      have := runWalk_not_envFound_fp active entries ("", "")
        (by rw [hr]; simpa using fun hc => hev (by rw [hc]))
      rw [hr] at this
      exact this
    exact absurd (by rw [← h1, this]) hfp

theorem searchInDirectory_err_shape (active : String)
    (entries : List WalkEntry) (er : Err)
    (h : (searchInDirectory active entries).2.2 = some er) :
    ∃ m, er = Err.fs m := by
  rcases hr : runWalk active ("", "") entries with ⟨⟨fp0, env0⟩, er0⟩
  rw [searchInDirectory, hr] at h
  by_cases hev : er0 = some Err.envFound
  · simp [hev] at h
  · simp [hev] at h
    rcases runWalk_err_shape active entries ("", "") er
        (by rw [hr]; exact h) with hf | hf
    · exact absurd (by rw [h, hf]) hev
    · exact hf

theorem searchInDirectory_not_envFound (active : String)
    (entries : List WalkEntry) :
    (searchInDirectory active entries).2.2 ≠ some Err.envFound := by
  intro h
  obtain ⟨m, hm⟩ := searchInDirectory_err_shape active entries Err.envFound h
  cases hm

theorem dirP_length_lt (p : GoPath) (hr : isRootOrDot (dirP p) = false) :
    (dirP p).comps.length < p.comps.length := by
  have h1 : p.comps ≠ [] := by
    intro hc
    have : isRootOrDot (dirP p) = true := by
      simp [isRootOrDot, dirP, hc]
    rw [this] at hr
    cases hr
  simp only [dirP, List.length_dropLast]
  exact Nat.sub_lt (List.length_pos.mpr h1) Nat.one_pos

theorem sup_err_step (active : String) (fs : GoPath → List WalkEntry)
    (p : GoPath) (fp0 env0 : String) (er : Err)
    (h : searchInDirectory active (fs p) = (fp0, env0, some er)) :
    searchInCurrentAndParentDirectories active fs p = ("", "", some er) := by
  rw [searchInCurrentAndParentDirectories, h]

theorem sup_found_step (active : String) (fs : GoPath → List WalkEntry)
    (p : GoPath) (fp env : String)
    (h : searchInDirectory active (fs p) = (fp, env, none)) (hfp : fp ≠ "") :
    searchInCurrentAndParentDirectories active fs p = (fp, env, none) := by
  rw [searchInCurrentAndParentDirectories, h]
  simp [hfp]

theorem sup_root_step (active : String) (fs : GoPath → List WalkEntry)
    (p : GoPath) (env : String)
    (h : searchInDirectory active (fs p) = ("", env, none))
    (hr : isRootOrDot (dirP p) = true) :
    searchInCurrentAndParentDirectories active fs p = ("", env, none) := by
  rw [searchInCurrentAndParentDirectories, h]
  simp [hr]

theorem sup_skip_step (active : String) (fs : GoPath → List WalkEntry)
    (p : GoPath) (env : String)
    (h : searchInDirectory active (fs p) = ("", env, none))
    (hr : isRootOrDot (dirP p) = false) :
    searchInCurrentAndParentDirectories active fs p =
      searchInCurrentAndParentDirectories active fs (dirP p) := by
  rw [searchInCurrentAndParentDirectories, h]
  simp [hr]

theorem visitedChain_eq (p : GoPath) :
    visitedChain p = p ::
      (if isRootOrDot (dirP p) = true then [] else visitedChain (dirP p)) := by
  by_cases hr : isRootOrDot (dirP p) = true
  · rw [visitedChain, if_pos hr, if_pos hr]
  · rw [visitedChain, if_neg hr, if_neg hr]

theorem self_mem_visitedChain (p : GoPath) : p ∈ visitedChain p := by
  rw [visitedChain_eq]
  exact List.mem_cons_self p _

theorem sup_noMatch (active : String) (fs : GoPath → List WalkEntry)
    (hall : ∀ q, ∀ e ∈ fs q, e.err = none ∧
      (isCandidate e = true → encodedProfile e ≠ active)) (p : GoPath) :
    ∃ env2,
      searchInCurrentAndParentDirectories active fs p = ("", env2, none) := by
  induction p using searchInCurrentAndParentDirectories.induct active fs with
  | case1 x fp0 env0 er hs =>
    obtain ⟨env2, hs2⟩ := searchInDirectory_noMatch active (fs x) (hall x)
    rw [hs] at hs2
    simp at hs2
  | case2 x env hr hs =>
    exact ⟨env, sup_root_step active fs x env hs hr⟩
  | case3 x env hr hs ih =>
    rw [sup_skip_step active fs x env hs (by rwa [Bool.not_eq_true] at hr)]
    exact ih
  | case4 x fp env hs hfp =>
    obtain ⟨env2, hs2⟩ := searchInDirectory_noMatch active (fs x) (hall x)
    rw [hs] at hs2
    simp at hs2
    exact absurd hs2.1 hfp

theorem sup_err_shape (active : String) (fs : GoPath → List WalkEntry)
    (p : GoPath) :
    ∀ er, (searchInCurrentAndParentDirectories active fs p).2.2 = some er →
      ∃ m, er = Err.fs m := by
  induction p using searchInCurrentAndParentDirectories.induct active fs with
  | case1 x fp0 env0 er0 hs =>
    intro er h
    rw [sup_err_step active fs x fp0 env0 er0 hs] at h
    simp at h
    subst h
    exact searchInDirectory_err_shape active (fs x) er0 (by rw [hs])
  | case2 x env hr hs =>
    intro er h
    rw [sup_root_step active fs x env hs hr] at h
    simp at h
  | case3 x env hr hs ih =>
    intro er h
    rw [sup_skip_step active fs x env hs
      (by rwa [Bool.not_eq_true] at hr)] at h
    exact ih er h
  | case4 x fp env hs hfp =>
    intro er h
    rw [sup_found_step active fs x fp env hs hfp] at h
    simp at h

theorem sup_not_envFound (active : String) (fs : GoPath → List WalkEntry)
    (p : GoPath) :
    (searchInCurrentAndParentDirectories active fs p).2.2 ≠
      some Err.envFound := by
  intro h
  obtain ⟨m, hm⟩ := sup_err_shape active fs p Err.envFound h
  cases hm

theorem sup_success_origin (active : String) (fs : GoPath → List WalkEntry)
    (p : GoPath) :
    ∀ fp env,
      searchInCurrentAndParentDirectories active fs p = (fp, env, none) →
      fp ≠ "" →
      ∃ q ∈ visitedChain p,
        searchInDirectory active (fs q) = (fp, env, none) := by
  induction p using searchInCurrentAndParentDirectories.induct active fs with
  | case1 x fp0 env0 er0 hs =>
    intro fp env h hfp
    rw [sup_err_step active fs x fp0 env0 er0 hs] at h
    simp at h
  | case2 x env0 hr hs =>
    intro fp env h hfp
    rw [sup_root_step active fs x env0 hs hr] at h
    simp at h
    exact absurd h.1.symm hfp
  | case3 x env0 hr hs ih =>
    intro fp env h hfp
    rw [sup_skip_step active fs x env0 hs
      (by rwa [Bool.not_eq_true] at hr)] at h
    obtain ⟨q, hq, hscan⟩ := ih fp env h hfp
    refine ⟨q, ?_, hscan⟩
    rw [visitedChain_eq x, if_neg hr]
    exact List.mem_cons_of_mem x hq
  | case4 x fp0 env0 hs hfp0 =>
    intro fp env h hfp
    rw [sup_found_step active fs x fp0 env0 hs hfp0] at h
    simp at h
    exact ⟨x, self_mem_visitedChain x, by rw [hs, h.1, h.2]⟩

theorem sup_env_active (active : String) (fs : GoPath → List WalkEntry)
    (p : GoPath) (fp env : String)
    (h : searchInCurrentAndParentDirectories active fs p = (fp, env, none))
    (hfp : fp ≠ "") : env = active := by
  obtain ⟨q, _, hscan⟩ := sup_success_origin active fs p fp env h hfp
  obtain ⟨e, _, _, _, _, henv⟩ :=
    searchInDirectory_success_origin active (fs q) fp env hscan hfp
  exact henv

theorem sup_chain_found (active : String) (fs : GoPath → List WalkEntry) :
    ∀ (pre : List GoPath) (p a : GoPath) (rest : List GoPath)
      (fp env : String),
      visitedChain p = pre ++ a :: rest →
      (∀ q ∈ pre, ∀ e ∈ fs q, e.err = none ∧
        (isCandidate e = true → encodedProfile e ≠ active)) →
      searchInDirectory active (fs a) = (fp, env, none) → fp ≠ "" →
      searchInCurrentAndParentDirectories active fs p = (fp, env, none) := by
  intro pre
  induction pre with
  | nil =>
    intro p a rest fp env hchain _ hscan hfp
    have hap : a = p := by
      rw [visitedChain_eq] at hchain
      simp at hchain
      exact hchain.1.symm
    subst hap
    exact sup_found_step active fs a fp env hscan hfp
  | cons q pre2 ih =>
    intro p a rest fp env hchain hpre hscan hfp
    rw [visitedChain_eq] at hchain
    have hq : q = p := by
      have := congrArg (fun l => l.head?) hchain
      simp at this
      exact this.symm
    subst hq
    have htail : (if isRootOrDot (dirP q) = true then []
        else visitedChain (dirP q)) = pre2 ++ a :: rest := by
      have := congrArg (fun l => l.tail) hchain
      simpa using this
    by_cases hr : isRootOrDot (dirP q) = true
    · rw [if_pos hr] at htail
      exact absurd htail.symm (List.append_ne_nil_of_right_ne_nil pre2
        (List.cons_ne_nil a rest))
    · rw [if_neg hr] at htail
      obtain ⟨env2, hs2⟩ := searchInDirectory_noMatch active (fs q)
        (hpre q (List.mem_cons_self q pre2))
      rw [sup_skip_step active fs q env2 hs2
        (by rwa [Bool.not_eq_true] at hr)]
      exact ih (dirP q) a rest fp env htail
        (fun q2 hq2 => hpre q2 (List.mem_cons_of_mem q hq2)) hscan hfp

theorem findEnvFile_err_shape (active : String)
    (fs : GoPath → List WalkEntry) (cwd : Except String GoPath)
    (fp env : String) (er : Err)
    (h : findEnvFile active fs cwd = (fp, env, some er)) :
    ∃ m, er = Err.fs m := by
  cases cwd with
  | error m =>
    simp [findEnvFile] at h
    exact ⟨m, h.2.2.symm⟩
  | ok d =>
    rw [findEnvFile] at h
    rcases hs : searchInCurrentAndParentDirectories active fs d with
      ⟨fp0, env0, er0⟩
    rw [hs] at h
    cases er0 with
    | none => simp at h
    | some er1 =>
      simp at h
      obtain ⟨_, _, h3⟩ := h
      subst h3
      exact sup_err_shape active fs d er1 (by rw [hs])

theorem v1_walk_nil (st : String × String) : V1.findEnvWalk st [] = st := rfl

theorem v1_walk_err (st : String × String) (e : WalkEntry)
    (rest : List WalkEntry) (m : String) (he : e.err = some m) :
    V1.findEnvWalk st (e :: rest) = st := by
  simp [V1.findEnvWalk, he]

theorem v1_walk_dir (st : String × String) (e : WalkEntry)
    (rest : List WalkEntry) (he : e.err = none) (hd : e.isDir = true) :
    V1.findEnvWalk st (e :: rest) = V1.findEnvWalk st rest := by
  simp [V1.findEnvWalk, he, hd]

theorem v1_walk_plain (st : String × String) (e : WalkEntry)
    (rest : List WalkEntry) (he : e.err = none) (hd : e.isDir = false)
    (hp : hasPrefixStr ".env." e.name = false) :
    V1.findEnvWalk st (e :: rest) = V1.findEnvWalk st rest := by
  simp [V1.findEnvWalk, he, hd, hp]

theorem v1_walk_cand (st : String × String) (e : WalkEntry)
    (rest : List WalkEntry) (he : e.err = none) (hd : e.isDir = false)
    (hp : hasPrefixStr ".env." e.name = true) :
    V1.findEnvWalk st (e :: rest) =
      V1.findEnvWalk (e.path, trimPrefixStr ".env." e.name) rest := by
  simp [V1.findEnvWalk, he, hd, hp]

theorem v1_walk_origin :
    ∀ (entries : List WalkEntry) (st : String × String) (fp env : String),
      V1.findEnvWalk st entries = (fp, env) →
      (fp, env) = st ∨ ∃ e ∈ entries, isCandidate e = true ∧
        fp = e.path ∧ env = encodedProfile e := by
  intro entries
  induction entries with
  | nil =>
    intro st fp env h
    rw [v1_walk_nil] at h
    exact Or.inl h.symm
  | cons e rest ih =>
    intro st fp env h
    cases he : e.err with
    | some m =>
      rw [v1_walk_err st e rest m he] at h
      exact Or.inl h.symm
    | none =>
      by_cases hd : e.isDir
      · rw [v1_walk_dir st e rest he hd] at h
        rcases ih st fp env h with h2 | ⟨e2, hmem, h2⟩
        · exact Or.inl h2
        · exact Or.inr ⟨e2, List.mem_cons_of_mem e hmem, h2⟩
      · rw [Bool.not_eq_true] at hd
        by_cases hp : hasPrefixStr ".env." e.name
        · rw [v1_walk_cand st e rest he hd hp] at h
          rcases ih _ fp env h with h2 | ⟨e2, hmem, h2⟩
          · refine Or.inr ⟨e, List.mem_cons_self e rest, ?_, ?_, ?_⟩
            · simp [isCandidate, hd, hp]
            · exact congrArg Prod.fst h2
            · simpa [encodedProfile] using congrArg Prod.snd h2
          · exact Or.inr ⟨e2, List.mem_cons_of_mem e hmem, h2⟩
        · rw [Bool.not_eq_true] at hp
          rw [v1_walk_plain st e rest he hd hp] at h
          rcases ih st fp env h with h2 | ⟨e2, hmem, h2⟩
          · exact Or.inl h2
          · exact Or.inr ⟨e2, List.mem_cons_of_mem e hmem, h2⟩

theorem v1_walk_last :
    ∀ (entries : List WalkEntry) (st : String × String),
      (∀ e ∈ entries, e.err = none) →
      V1.findEnvWalk st entries =
        match (entries.filter fun e => isCandidate e).getLast? with
        | some c => (c.path, encodedProfile c)
        | none => st := by
  intro entries
  induction entries with
  | nil =>
    intro st _
    rw [v1_walk_nil]
    simp
  | cons e rest ih =>
    intro st herr
    have he : e.err = none := herr e (List.mem_cons_self e rest)
    have herrr : ∀ e2 ∈ rest, e2.err = none :=
      fun e2 h2 => herr e2 (List.mem_cons_of_mem e h2)
    by_cases hc : isCandidate e = true
    · have hd : e.isDir = false := by
        by_contra hd2
        rw [Bool.not_eq_false] at hd2
        simp [isCandidate, hd2] at hc
      have hp : hasPrefixStr ".env." e.name = true := by
        simpa [isCandidate, hd] using hc
      rw [v1_walk_cand st e rest he hd hp,
        ih (e.path, trimPrefixStr ".env." e.name) herrr]
      rw [List.filter_cons_of_pos hc]
      cases hfr : rest.filter fun e2 => isCandidate e2 with
      | nil => simp [encodedProfile]
      | cons b l =>
        rw [List.getLast?_cons_cons]
        cases hgl : (b :: l).getLast? with
        | none =>
          exact absurd (List.getLast?_eq_none_iff.mp hgl)
            (List.cons_ne_nil b l)
        | some c => rfl
    · have hc2 : isCandidate e = false := by
        rwa [Bool.not_eq_true] at hc
      have hfilter : ((e :: rest).filter fun e2 => isCandidate e2) =
          rest.filter fun e2 => isCandidate e2 := by
        simp [List.filter_cons, hc2]
      rw [hfilter]
      by_cases hd : e.isDir
      · rw [v1_walk_dir st e rest he hd]
        exact ih st herrr
      · rw [Bool.not_eq_true] at hd
        have hp : hasPrefixStr ".env." e.name = false := by
          have h3 := hc2
          simp [isCandidate, hd] at h3
          exact h3
        rw [v1_walk_plain st e rest he hd hp]
        exact ih st herrr

/-- C1: in the later loader, the per-directory scan selects a
candidate only when its encoded profile equals the active profile by
exact string equality, and stops on the first such match; a scan over
only mismatching candidates selects no file and the walk goes on to
the parent. -/
theorem c1_exact_profile_selection (active : String) :
    (∀ entries : List WalkEntry,
      (∀ e ∈ entries, e.err = none ∧
        (isCandidate e = true → encodedProfile e ≠ active)) →
      (searchInDirectory active entries).1 = "" ∧
        (searchInDirectory active entries).2.2 = none) ∧
    (∀ (entries : List WalkEntry) (fp env : String),
      searchInDirectory active entries = (fp, env, none) → fp ≠ "" →
      ∃ e ∈ entries, isCandidate e = true ∧ encodedProfile e = active ∧
        fp = e.path) ∧
    (∀ (st : String × String) (e : WalkEntry) (rest : List WalkEntry),
      e.err = none → e.isDir = false → isCandidate e = true →
      encodedProfile e = active →
      runWalk active st (e :: rest) =
        ((e.path, encodedProfile e), some Err.envFound)) ∧
    (∀ (fs : GoPath → List WalkEntry) (p : GoPath),
      (∀ e ∈ fs p, e.err = none ∧
        (isCandidate e = true → encodedProfile e ≠ active)) →
      isRootOrDot (dirP p) = false →
      searchInCurrentAndParentDirectories active fs p =
        searchInCurrentAndParentDirectories active fs (dirP p)) := by
  refine ⟨?_, ?_, ?_, ?_⟩
  · intro entries hall
    obtain ⟨env2, h⟩ := searchInDirectory_noMatch active entries hall
    rw [h]
    exact ⟨rfl, rfl⟩
  · intro entries fp env h hfp
    obtain ⟨e, hmem, hc, hp, hpath, _⟩ :=
      searchInDirectory_success_origin active entries fp env h hfp
    exact ⟨e, hmem, hc, hp, hpath⟩
  · intro st e rest he hd hc hprof
    have hp : hasPrefixStr ".env." e.name = true := by
      simpa [isCandidate, hd] using hc
    have hq : trimPrefixStr ".env." e.name = active := by
      simpa [encodedProfile] using hprof
    rw [runWalk_hit active st e rest he hd hp hq]
    rfl
  · intro fs p hall hr
    obtain ⟨env2, h⟩ := searchInDirectory_noMatch active (fs p) hall
    exact sup_skip_step active fs p env2 h hr

/-- C1 witness: concrete instances of each conjunct of
`c1_exact_profile_selection` at the profile `mine`. -/
theorem c1_exact_profile_selection_witness :
    ((searchInDirectory "mine" [entOther]).1 = "" ∧
      (searchInDirectory "mine" [entOther]).2.2 = none) ∧
    (∃ e ∈ [entMine], isCandidate e = true ∧
      encodedProfile e = "mine" ∧ "/w/.env.mine" = e.path) ∧
    (runWalk "mine" ("", "") [entMine] =
      ((entMine.path, encodedProfile entMine), some Err.envFound)) ∧
    (searchInCurrentAndParentDirectories "mine" fsEmpty ⟨true, ["a", "b"]⟩ =
      searchInCurrentAndParentDirectories "mine" fsEmpty
        (dirP ⟨true, ["a", "b"]⟩)) :=
  ⟨(c1_exact_profile_selection "mine").1 [entOther] (by decide),
    (c1_exact_profile_selection "mine").2.1 [entMine] "/w/.env.mine" "mine"
      (by decide) (by decide),
    (c1_exact_profile_selection "mine").2.2.1 ("", "") entMine []
      (by decide) (by decide) (by decide) (by decide),
    (c1_exact_profile_selection "mine").2.2.2 fsEmpty ⟨true, ["a", "b"]⟩
      (by intro e he; cases he) (by decide)⟩

/-- C2: the upward walk breaks, with no match, as soon as the parent
computed by Dir equals the root or the current-directory sentinel; and
with no matching file anywhere, LoadEnv terminates (the definition is
total) with the not-found error. -/
theorem c2_upward_walk_termination (active : String)
    (fs : GoPath → List WalkEntry) :
    (∀ (p : GoPath) (env2 : String),
      searchInDirectory active (fs p) = ("", env2, none) →
      isRootOrDot (dirP p) = true →
      searchInCurrentAndParentDirectories active fs p =
        ("", env2, none)) ∧
    ((∀ q, ∀ e ∈ fs q, e.err = none ∧
        (isCandidate e = true → encodedProfile e ≠ active)) →
      ∀ (cwd : GoPath) (godotenv : String → Option String),
        (searchInCurrentAndParentDirectories active fs cwd).1 = "" ∧
        LoadEnv ⟨active⟩ fs (Except.ok cwd) godotenv =
          (⟨active⟩, some Err.notFound)) := by
  constructor
  · intro p env2 h hr
    exact sup_root_step active fs p env2 h hr
  · intro hall cwd godotenv
    obtain ⟨env2, h⟩ := sup_noMatch active fs hall cwd
    constructor
    · rw [h]
    · simp [LoadEnv, findEnvFile, h]

/-- C2 witness: `c2_upward_walk_termination` at the profile `mine`
over a filesystem holding only a mismatching candidate in the working
directory `.`. -/
theorem c2_upward_walk_termination_witness :
    (searchInCurrentAndParentDirectories "mine" fsOnlyOther ⟨false, []⟩ =
      ("", "other", none)) ∧
    ((searchInCurrentAndParentDirectories "mine" fsOnlyOther
      ⟨false, []⟩).1 = "" ∧
      LoadEnv ⟨"mine"⟩ fsOnlyOther (Except.ok ⟨false, []⟩)
        (fun _ => none) = (⟨"mine"⟩, some Err.notFound)) := by
  have hall : ∀ q, ∀ e ∈ fsOnlyOther q, e.err = none ∧
      (isCandidate e = true → encodedProfile e ≠ "mine") := by
    intro q e he
    by_cases hq : q = ⟨false, []⟩
    · subst hq
      simp [fsOnlyOther] at he
      subst he
      decide
    · simp [fsOnlyOther, hq] at he
  exact ⟨(c2_upward_walk_termination "mine" fsOnlyOther).1 ⟨false, []⟩
      "other" (by decide) (by decide),
    (c2_upward_walk_termination "mine" fsOnlyOther).2 hall ⟨false, []⟩
      (fun _ => none)⟩

/-- C3: LoadEnv (later version) errors exactly three ways: a
filesystem error from the search is propagated unchanged, a completed
search with no match yields the not-found error, and a godotenv
failure is returned wrapped with context; in every other case it
returns no error. -/
theorem c3_loadEnv_error_trichotomy (f : FileEnvLoader)
    (fs : GoPath → List WalkEntry) (cwd : Except String GoPath)
    (godotenv : String → Option String) :
    (∀ (fp env : String) (er : Err),
      findEnvFile f.Env fs cwd = (fp, env, some er) →
      (∃ m, er = Err.fs m) ∧ LoadEnv f fs cwd godotenv = (f, some er)) ∧
    (∀ env : String,
      findEnvFile f.Env fs cwd = ("", env, none) →
      LoadEnv f fs cwd godotenv = (f, some Err.notFound)) ∧
    (∀ (fp env : String),
      findEnvFile f.Env fs cwd = (fp, env, none) → fp ≠ "" →
      (∀ m, godotenv fp = some m →
        LoadEnv f fs cwd godotenv = (⟨env⟩,
          some (Err.parse
            ("erro ao carregar variáveis de ambiente: " ++ m)))) ∧
      (godotenv fp = none →
        LoadEnv f fs cwd godotenv = (⟨env⟩, none))) := by
  refine ⟨?_, ?_, ?_⟩
  · intro fp env er h
    exact ⟨findEnvFile_err_shape f.Env fs cwd fp env er h,
      by simp [LoadEnv, h]⟩
  · intro env h
    simp [LoadEnv, h]
  · intro fp env h hfp
    constructor
    · intro m hm
      simp [LoadEnv, h, hfp, loadEnvFile, hm]
    · intro hm
      simp [LoadEnv, h, hfp, loadEnvFile, hm]

/-- C3 witness: the three error regimes of
`c3_loadEnv_error_trichotomy` at concrete inputs: a failing Getwd, an
empty filesystem, and a matching file with a failing and a succeeding
parser. -/
theorem c3_loadEnv_error_trichotomy_witness :
    ((∃ m, Err.fs "boom" = Err.fs m) ∧
      LoadEnv ⟨"mine"⟩ fsEmpty (Except.error "boom") (fun _ => none) =
        (⟨"mine"⟩, some (Err.fs "boom"))) ∧
    (LoadEnv ⟨"mine"⟩ fsEmpty (Except.ok ⟨false, []⟩) (fun _ => none) =
      (⟨"mine"⟩, some Err.notFound)) ∧
    (LoadEnv ⟨"mine"⟩ fsOnlyMine (Except.ok ⟨false, []⟩)
        (fun _ => some "bad") =
      (⟨"mine"⟩, some (Err.parse
        ("erro ao carregar variáveis de ambiente: " ++ "bad")))) ∧
    (LoadEnv ⟨"mine"⟩ fsOnlyMine (Except.ok ⟨false, []⟩)
        (fun _ => none) = (⟨"mine"⟩, none)) := by
  have hempty : findEnvFile "mine" fsEmpty (Except.ok ⟨false, []⟩) =
      ("", "", none) := by
    have hs : searchInCurrentAndParentDirectories "mine" fsEmpty
        ⟨false, []⟩ = ("", "", none) :=
      sup_root_step "mine" fsEmpty ⟨false, []⟩ "" (by decide) (by decide)
    simp [findEnvFile, hs]
  have hmine : findEnvFile "mine" fsOnlyMine (Except.ok ⟨false, []⟩) =
      ("/w/.env.mine", "mine", none) := by
    have hs : searchInCurrentAndParentDirectories "mine" fsOnlyMine
        ⟨false, []⟩ = ("/w/.env.mine", "mine", none) :=
      sup_found_step "mine" fsOnlyMine ⟨false, []⟩ "/w/.env.mine" "mine"
        (by decide) (by decide)
    simp [findEnvFile, hs]
  refine ⟨?_, ?_, ?_, ?_⟩
  · exact (c3_loadEnv_error_trichotomy ⟨"mine"⟩ fsEmpty
      (Except.error "boom") (fun _ => none)).1 "" "" (Err.fs "boom")
      (by decide)
  · exact (c3_loadEnv_error_trichotomy ⟨"mine"⟩ fsEmpty
      (Except.ok ⟨false, []⟩) (fun _ => none)).2.1 "" hempty
  · exact ((c3_loadEnv_error_trichotomy ⟨"mine"⟩ fsOnlyMine
      (Except.ok ⟨false, []⟩) (fun _ => some "bad")).2.2 "/w/.env.mine"
      "mine" hmine (by decide)).1 "bad" rfl
  · exact ((c3_loadEnv_error_trichotomy ⟨"mine"⟩ fsOnlyMine
      (Except.ok ⟨false, []⟩) (fun _ => none)).2.2 "/w/.env.mine"
      "mine" hmine (by decide)).2 rfl

/-- C4: the sentinel ErrEnvFound is raised by the walk only when a
match was found, is converted back into an error-free result exactly
then, never escapes searchInDirectory, the upward walk or LoadEnv, and
every other walk error is returned as an error. -/
theorem c4_sentinel_never_escapes (active : String) :
    (∀ (entries : List WalkEntry) (st : String × String)
      (fp env : String),
      runWalk active st entries = ((fp, env), some Err.envFound) →
      ∃ e ∈ entries, isCandidate e = true ∧ encodedProfile e = active ∧
        fp = e.path) ∧
    (∀ (entries : List WalkEntry) (fp env : String),
      runWalk active ("", "") entries = ((fp, env), some Err.envFound) →
      searchInDirectory active entries = (fp, env, none)) ∧
    (∀ (entries : List WalkEntry) (fp env : String) (m : String),
      runWalk active ("", "") entries = ((fp, env), some (Err.fs m)) →
      searchInDirectory active entries = (fp, env, some (Err.fs m))) ∧
    (∀ entries : List WalkEntry,
      (searchInDirectory active entries).2.2 ≠ some Err.envFound) ∧
    (∀ (fs : GoPath → List WalkEntry) (p : GoPath),
      (searchInCurrentAndParentDirectories active fs p).2.2 ≠
        some Err.envFound) ∧
    (∀ (f : FileEnvLoader) (fs : GoPath → List WalkEntry)
      (cwd : Except String GoPath) (godotenv : String → Option String),
      (LoadEnv f fs cwd godotenv).2 ≠ some Err.envFound) := by
  refine ⟨?_, ?_, ?_, ?_, ?_, ?_⟩
  · intro entries st fp env h
    obtain ⟨e, hmem, _, _, hc, hp, hpath, _⟩ :=
      runWalk_envFound active entries st fp env h
    exact ⟨e, hmem, hc, hp, hpath⟩
  · intro entries fp env h
    exact searchInDirectory_convert active entries fp env h
  · intro entries fp env m h
    simp [searchInDirectory, h]
  · intro entries
    exact searchInDirectory_not_envFound active entries
  · intro fs p
    exact sup_not_envFound active fs p
  · intro f fs cwd godotenv h
    rcases hf : findEnvFile f.Env fs cwd with ⟨fp, env, er0⟩
    cases er0 with
    | some er =>
      simp [LoadEnv, hf] at h
      obtain ⟨m, hm⟩ := findEnvFile_err_shape f.Env fs cwd fp env er hf
      rw [hm] at h
      cases h
    | none =>
      by_cases hfp : fp = ""
      · subst hfp
        simp [LoadEnv, hf] at h
      · simp [LoadEnv, hf, hfp, loadEnvFile] at h
        rcases hg : godotenv fp with _ | m
        · rw [hg] at h
          simp at h
        · rw [hg] at h
          simp at h

/-- C4 witness: concrete instances of the conjuncts of
`c4_sentinel_never_escapes` at the profile `mine`: a matching walk
raising the sentinel, its conversion, and a filesystem error passed
through. -/
theorem c4_sentinel_never_escapes_witness :
    (∃ e ∈ [entMine], isCandidate e = true ∧
      encodedProfile e = "mine" ∧ "/w/.env.mine" = e.path) ∧
    (searchInDirectory "mine" [entMine] = ("/w/.env.mine", "mine", none)) ∧
    (searchInDirectory "mine" [⟨"x", "x", false, some "boom"⟩] =
      ("", "", some (Err.fs "boom"))) := by
  refine ⟨?_, ?_, ?_⟩
  · exact (c4_sentinel_never_escapes "mine").1 [entMine] ("", "")
      "/w/.env.mine" "mine" (by decide)
  · exact (c4_sentinel_never_escapes "mine").2.1 [entMine] "/w/.env.mine"
      "mine" (by decide)
  · exact (c4_sentinel_never_escapes "mine").2.2.1
      [⟨"x", "x", false, some "boom"⟩] "" "" "boom" (by decide)

/-- C5 counterexample: with active profile `mine` and a working
directory holding only `.env.other`, the locator completes without
error and without a match, yet returns profile `other`, not the empty
profile the claim demands. -/
theorem c5_counterexample_profile_not_empty :
    searchInCurrentAndParentDirectories "mine" fsOnlyOther ⟨false, []⟩ =
      ("", "other", none) ∧ ("other" : String) ≠ "" := by
  constructor
  · rw [searchInCurrentAndParentDirectories]
    decide
  · decide

/-- C5 (amended): whenever the locator completes without a filesystem
error and without finding a matching file, it returns the empty path
as the no-match sentinel; the profile component is whatever the last
scan left behind and need not be empty. -/
theorem c5_amended_no_match_empty_path (active : String)
    (fs : GoPath → List WalkEntry)
    (hall : ∀ q, ∀ e ∈ fs q, e.err = none ∧
      (isCandidate e = true → encodedProfile e ≠ active)) (p : GoPath) :
    ∃ env2, searchInCurrentAndParentDirectories active fs p =
      ("", env2, none) :=
  sup_noMatch active fs hall p

/-- C5 witness: `c5_amended_no_match_empty_path` on the filesystem
holding only the mismatching `.env.other`. -/
theorem c5_amended_no_match_empty_path_witness :
    ∃ env2, searchInCurrentAndParentDirectories "mine" fsOnlyOther
      ⟨false, []⟩ = ("", env2, none) :=
  c5_amended_no_match_empty_path "mine" fsOnlyOther
    (by
      intro q e he
      by_cases hq : q = ⟨false, []⟩
      · subst hq
        simp [fsOnlyOther] at he
        subst he
        decide
      · simp [fsOnlyOther, hq] at he)
    ⟨false, []⟩

/-- C6: when the working directory descends from an ancestor whose
subtree holds a file named `.env.` plus the active profile, and no
closer directory on the chain has a match, the upward walk selects
that file and LoadEnv succeeds. -/
theorem c6_found_in_ancestor (active : String)
    (fs : GoPath → List WalkEntry) (p a : GoPath)
    (pre rest : List GoPath)
    (hchain : visitedChain p = pre ++ a :: rest)
    (hpre : ∀ q ∈ pre, ∀ e ∈ fs q, e.err = none ∧
      (isCandidate e = true → encodedProfile e ≠ active))
    (herr : ∀ e ∈ fs a, e.err = none)
    (hmatch : ∃ e ∈ fs a, isCandidate e = true ∧
      encodedProfile e = active)
    (hne : ∀ e ∈ fs a, e.path ≠ "") :
    ∃ e ∈ fs a, isCandidate e = true ∧ encodedProfile e = active ∧
      searchInCurrentAndParentDirectories active fs p =
        (e.path, active, none) ∧
      ∀ godotenv : String → Option String, godotenv e.path = none →
        LoadEnv ⟨active⟩ fs (Except.ok p) godotenv =
          (⟨active⟩, none) := by
  obtain ⟨e, hmem, hc, hp, hscan⟩ :=
    searchInDirectory_match active (fs a) herr hmatch
  have hfp : e.path ≠ "" := hne e hmem
  have hsup : searchInCurrentAndParentDirectories active fs p =
      (e.path, active, none) :=
    sup_chain_found active fs pre p a rest e.path active hchain hpre
      hscan hfp
  refine ⟨e, hmem, hc, hp, hsup, ?_⟩
  intro godotenv hg
  simp [LoadEnv, findEnvFile, hsup, hfp, loadEnvFile, hg]

/-- C6 witness: `c6_found_in_ancestor` with working directory
`/home/sub`, the matching `.env.test` living in the parent `/home`,
and nothing anywhere else. -/
theorem c6_found_in_ancestor_witness :
    ∃ e ∈ fsParentTest ⟨true, ["home"]⟩, isCandidate e = true ∧
      encodedProfile e = "test" ∧
      searchInCurrentAndParentDirectories "test" fsParentTest
        ⟨true, ["home", "sub"]⟩ = (e.path, "test", none) ∧
      ∀ godotenv : String → Option String, godotenv e.path = none →
        LoadEnv ⟨"test"⟩ fsParentTest
          (Except.ok ⟨true, ["home", "sub"]⟩) godotenv =
          (⟨"test"⟩, none) := by
  have hchain : visitedChain ⟨true, ["home", "sub"]⟩ =
      [⟨true, ["home", "sub"]⟩] ++ ⟨true, ["home"]⟩ :: [] := by
    rw [visitedChain, visitedChain]
    norm_num [dirP, isRootOrDot]
  exact c6_found_in_ancestor "test" fsParentTest
    ⟨true, ["home", "sub"]⟩ ⟨true, ["home"]⟩
    [⟨true, ["home", "sub"]⟩] [] hchain
    (by
      intro q hq e he
      simp at hq
      subst hq
      simp [fsParentTest] at he)
    (by decide) (by decide) (by decide)

/-- C7 counterexample: a walk seeing `.env.a` then `.env.b` makes the
earlier findEnvFile return the second (last) candidate, not the first
one the claim demands. -/
theorem c7_counterexample_first_not_selected :
    V1.findEnvFile [entA, entB] = ("b/.env.b", "b") ∧
    V1.findEnvFile [entA, entB] ≠ ("a/.env.a", "a") := by decide

/-- C7 (amended): the earlier findEnvFile returns the path and encoded
profile of the last `.env.*` file encountered in walk order (ignoring
whether its suffix matches the active profile), provided no filesystem
error aborts the walk. -/
theorem c7_amended_last_candidate_selected (entries : List WalkEntry)
    (herr : ∀ e ∈ entries, e.err = none) (c : WalkEntry)
    (hlast : lastCandidate entries = some c) :
    V1.findEnvFile entries = (c.path, encodedProfile c) := by
  rw [V1.findEnvFile, v1_walk_last entries ("", "") herr]
  rw [lastCandidate] at hlast
  rw [hlast]

/-- C7 witness: `c7_amended_last_candidate_selected` on the
two-candidate walk, whose last candidate is `.env.b`. -/
theorem c7_amended_last_candidate_selected_witness :
    V1.findEnvFile [entA, entB] = (entB.path, encodedProfile entB) :=
  c7_amended_last_candidate_selected [entA, entB] (by decide) entB
    (by decide)

/-- C8: after a successful LoadEnv, the loader's Env field equals the
encoded profile of the file that was actually loaded (the remainder of
the matched file's name after `.env.`), in both the later and the
earlier version. -/
theorem c8_env_matches_loaded_profile :
    (∀ (f : FileEnvLoader) (fs : GoPath → List WalkEntry) (d : GoPath)
      (godotenv : String → Option String) (f2 : FileEnvLoader),
      LoadEnv f fs (Except.ok d) godotenv = (f2, none) →
      ∃ (q : GoPath) (e : WalkEntry), q ∈ visitedChain d ∧ e ∈ fs q ∧
        isCandidate e = true ∧
        findEnvFile f.Env fs (Except.ok d) = (e.path, f2.Env, none) ∧
        f2.Env = encodedProfile e) ∧
    (∀ (f : FileEnvLoader) (entries : List WalkEntry)
      (godotenv : String → Option String) (f2 : FileEnvLoader),
      V1.LoadEnv f entries godotenv = (f2, none) →
      ∃ e ∈ entries, isCandidate e = true ∧
        V1.findEnvFile entries = (e.path, f2.Env) ∧
        f2.Env = encodedProfile e) := by
  constructor
  · intro f fs d godotenv f2 h
    rcases hf : findEnvFile f.Env fs (Except.ok d) with ⟨fp, env, er0⟩
    cases er0 with
    | some er => simp [LoadEnv, hf] at h
    | none =>
      by_cases hfp : fp = ""
      · subst hfp
        simp [LoadEnv, hf] at h
      · have h2 : f2 = (⟨env⟩ : FileEnvLoader) := by
          simp [LoadEnv, hf, hfp] at h
          exact h.1.symm
        have hsup : searchInCurrentAndParentDirectories f.Env fs d =
            (fp, env, none) := by
          rw [findEnvFile] at hf
          rcases hs : searchInCurrentAndParentDirectories f.Env fs d with
            ⟨fp0, env0, er1⟩
          rw [hs] at hf
          cases er1 with
          | some er1 => simp at hf
          | none =>
            simp at hf
            rw [hf.1, hf.2]
        obtain ⟨q, hq, hscan⟩ :=
          sup_success_origin f.Env fs d fp env hsup hfp
        obtain ⟨e, hmem, hc, hp, hpath, henv⟩ :=
          searchInDirectory_success_origin f.Env (fs q) fp env hscan hfp
        refine ⟨q, e, hq, hmem, hc, ?_, ?_⟩
        · rw [h2, ← hpath]
        · rw [h2]
          show env = encodedProfile e
          rw [henv, hp]
      
  · intro f entries godotenv f2 h
    rcases hf : V1.findEnvFile entries with ⟨fp, env⟩
    by_cases hfp : fp = ""
    · subst hfp
      simp [V1.LoadEnv, hf] at h
    · have h2 : f2 = (⟨env⟩ : FileEnvLoader) := by
        simp [V1.LoadEnv, hf, hfp] at h
        exact h.1.symm
      rcases v1_walk_origin entries ("", "") fp env hf with h0 | hex
      · exact absurd (congrArg Prod.fst h0) hfp
      · obtain ⟨e, hmem, hc, hpath, henv⟩ := hex
        refine ⟨e, hmem, hc, ?_, ?_⟩
        · rw [h2, ← hpath]
        · rw [h2]
          show env = encodedProfile e
          exact henv

/-- C8 witness: `c8_env_matches_loaded_profile` at concrete loads: the
later loader finding `.env.test` in the parent directory, and the
earlier loader keeping the last candidate `.env.b`. -/
theorem c8_env_matches_loaded_profile_witness :
    (∃ (q : GoPath) (e : WalkEntry),
      q ∈ visitedChain ⟨true, ["home", "sub"]⟩ ∧ e ∈ fsParentTest q ∧
      isCandidate e = true ∧
      findEnvFile "test" fsParentTest
        (Except.ok ⟨true, ["home", "sub"]⟩) = (e.path, "test", none) ∧
      ("test" : String) = encodedProfile e) ∧
    (∃ e ∈ [entA, entB], isCandidate e = true ∧
      V1.findEnvFile [entA, entB] = (e.path, "b") ∧
      ("b" : String) = encodedProfile e) := by
  have h1 : searchInDirectory "test"
      (fsParentTest ⟨true, ["home", "sub"]⟩) = ("", "", none) := by
    decide
  have h2 : searchInDirectory "test" (fsParentTest ⟨true, ["home"]⟩) =
      ("/home/.env.test", "test", none) := by decide
  have hsup : searchInCurrentAndParentDirectories "test" fsParentTest
      ⟨true, ["home", "sub"]⟩ = ("/home/.env.test", "test", none) := by
    rw [sup_skip_step "test" fsParentTest ⟨true, ["home", "sub"]⟩ ""
      h1 (by decide)]
    have hd : dirP ⟨true, ["home", "sub"]⟩ = ⟨true, ["home"]⟩ := by
      decide
    rw [hd]
    exact sup_found_step "test" fsParentTest ⟨true, ["home"]⟩
      "/home/.env.test" "test" h2 (by decide)
  have hload : LoadEnv ⟨"test"⟩ fsParentTest
      (Except.ok ⟨true, ["home", "sub"]⟩) (fun _ => none) =
      (⟨"test"⟩, none) := by
    simp [LoadEnv, findEnvFile, hsup, loadEnvFile]
  exact ⟨c8_env_matches_loaded_profile.1 ⟨"test"⟩ fsParentTest
      ⟨true, ["home", "sub"]⟩ (fun _ => none) ⟨"test"⟩ hload,
    c8_env_matches_loaded_profile.2 ⟨"x"⟩ [entA, entB] (fun _ => none)
      ⟨"b"⟩ (by decide)⟩

/-- C9: in the later loader, LoadEnv leaves the Env field unchanged on
every path — the scan only matches when the encoded profile already
equals the current Env, so the write in LoadEnv stores back the value
Env already holds. -/
theorem c9_loadEnv_preserves_env (f : FileEnvLoader)
    (fs : GoPath → List WalkEntry) (cwd : Except String GoPath)
    (godotenv : String → Option String) :
    (LoadEnv f fs cwd godotenv).1 = f := by
  rcases hf : findEnvFile f.Env fs cwd with ⟨fp, env, er0⟩
  cases er0 with
  | some er => simp [LoadEnv, hf]
  | none =>
    by_cases hfp : fp = ""
    · subst hfp
      simp [LoadEnv, hf]
    · have henv : env = f.Env := by
        cases cwd with
        | error m => simp [findEnvFile] at hf
        | ok d =>
          have hsup : searchInCurrentAndParentDirectories f.Env fs d =
              (fp, env, none) := by
            rw [findEnvFile] at hf
            rcases hs : searchInCurrentAndParentDirectories f.Env fs d
              with ⟨fp0, env0, er1⟩
            rw [hs] at hf
            cases er1 with
            | some er1 => simp at hf
            | none =>
              simp at hf
              rw [hf.1, hf.2]
          exact sup_env_active f.Env fs d fp env hsup hfp
      simp [LoadEnv, hf, hfp, henv]

/-- C10: GetEnv is a pure accessor returning the Env field, with no
failure mode; after a successful LoadEnv every GetEnv read returns the
profile that load recorded, unchanged between reads. -/
theorem c10_getEnv_pure_accessor :
    (∀ f : FileEnvLoader, GetEnv f = f.Env) ∧
    (∀ (f f2 : FileEnvLoader) (fs : GoPath → List WalkEntry)
      (cwd : Except String GoPath) (godotenv : String → Option String),
      LoadEnv f fs cwd godotenv = (f2, none) →
      GetEnv f2 = f2.Env ∧ GetEnv f2 = GetEnv f2) := by
  constructor
  · intro f
    rfl
  · intro f f2 fs cwd godotenv _
    exact ⟨rfl, rfl⟩

/-- C10 witness: `c10_getEnv_pure_accessor` after the load that finds
`.env.mine` in the working directory. -/
theorem c10_getEnv_pure_accessor_witness :
    GetEnv ⟨"mine"⟩ = "mine" ∧
    (GetEnv ⟨"mine"⟩ = FileEnvLoader.Env ⟨"mine"⟩ ∧
      GetEnv ⟨"mine"⟩ = GetEnv ⟨"mine"⟩) := by
  have hsup : searchInCurrentAndParentDirectories "mine" fsOnlyMine
      ⟨false, []⟩ = ("/w/.env.mine", "mine", none) :=
    sup_found_step "mine" fsOnlyMine ⟨false, []⟩ "/w/.env.mine" "mine"
      (by decide) (by decide)
  have hload : LoadEnv ⟨"mine"⟩ fsOnlyMine (Except.ok ⟨false, []⟩)
      (fun _ => none) = (⟨"mine"⟩, none) := by
    simp [LoadEnv, findEnvFile, hsup, loadEnvFile]
  exact ⟨c10_getEnv_pure_accessor.1 ⟨"mine"⟩,
    c10_getEnv_pure_accessor.2 ⟨"mine"⟩ ⟨"mine"⟩ fsOnlyMine
      (Except.ok ⟨false, []⟩) (fun _ => none) hload⟩
